import Mathlib

/-
Verification of the GarminShareTracker core logic (src/streamlit_app.py).

The embedding is shallow: Python floats for times and coordinates are
modelled as rationals (every IEEE float value is a rational number);
the transcendental haversine computation is modelled over the reals.
HTTP traffic is modelled by an oracle (`FetchEnv`) giving the outcome of
each of the up-to-three GET requests that `get_position` can issue:
the share-page request, the feed request, and the feed retry after a 429.
`st.*` display calls and the folium map rendering are presentation-side
effects with no influence on the tracked state and are not modelled.
-/

set_option maxHeartbeats 1000000

namespace BoatTracker

/-- A Fix: the `position_data` dictionary built by `get_position` from the
first entry of the feed's `locations` list (lat, lon, timestamp, speed,
course, elevation).  Numeric fields are modelled as rationals. -/
structure Fix where
  lat : ℚ
  lon : ℚ
  timestamp : ℚ
  speed : ℚ
  course : ℚ
  elevation : ℚ
deriving DecidableEq, Repr

/-- Body of an HTTP response: either undecodable JSON, or a decoded JSON
object whose `locations` field holds a (possibly empty) list of location
entries; a missing `locations` key and an empty list are both falsy in
`data.get('locations')`, so both are modelled by the empty list. -/
inductive Body where
  | invalid : Body
  | valid : List Fix → Body
deriving DecidableEq, Repr

/-- An HTTP response: status code plus body. -/
structure HttpResponse where
  status : ℕ
  body : Body
deriving DecidableEq, Repr

/-- Outcome of one `session.get` call: a response, a raised
`requests.exceptions.Timeout`, or any other raised exception
(connection error, etc.). -/
inductive ReqOutcome where
  | ok : HttpResponse → ReqOutcome
  | timeout : ReqOutcome
  | error : ReqOutcome
deriving DecidableEq, Repr

/-- Oracle for the up-to-three GET requests one `get_position` call can
issue: the share-page GET, the feed GET, and the feed retry GET after 429. -/
structure FetchEnv where
  base : ReqOutcome
  feed : ReqOutcome
  retry : ReqOutcome
deriving DecidableEq, Repr

/-- Per-boat state stored in `self.boats[name]` (the folium marker/path
handles and the per-boat HTTP session carry no tracked data and are
omitted). -/
structure BoatInfo where
  shareId : String
  color : String
  history : List (ℚ × ℚ)
  last_update : Option Fix
  cachedPosition : Option Fix
deriving DecidableEq, Repr

/-- GarminShareTracker state: the `boats` dict (as an insertion-ordered
association list, like a Python dict), the history capacity fixed at
construction, the mutable colour palette, and the `last_update_time` dict. -/
structure Tracker where
  boats : List (String × BoatInfo)
  historyLength : ℕ
  colors : List String
  lastUpdateTime : List (String × ℚ)
deriving DecidableEq, Repr

/-- The palette set in `__init__`. -/
def initColors : List String :=
  ["blue", "red", "green", "purple", "orange", "darkred"]

/-- Fernando de Noronha reference coordinates from `__init__`
(-3.8547, -32.4248). -/
def noronhaCoords : ℚ × ℚ := (-38547 / 10000, -324248 / 10000)

/-- A fresh tracker as built by `__init__` (default history_length 100). -/
def initTracker (historyLength : ℕ := 100) : Tracker :=
  ⟨[], historyLength, initColors, []⟩

/-- Python dict read `d.get(k)` on an insertion-ordered association list. -/
def dictGet {β : Type} (k : String) : List (String × β) → Option β
  | [] => none
  | kv :: rest => if kv.1 = k then some kv.2 else dictGet k rest

/-- Python dict write `d[k] = v`: replaces in place if the key is present
(keeping its position), otherwise appends. -/
def dictSet {β : Type} (k : String) (v : β) : List (String × β) → List (String × β)
  | [] => [(k, v)]
  | kv :: rest => if kv.1 = k then (k, v) :: rest else kv :: dictSet k v rest

/-- The last `cap` elements of a list; `l` unchanged when it is short. -/
def takeLast {α : Type} (cap : ℕ) (l : List α) : List α :=
  l.drop (l.length - cap)

/-- `deque(maxlen=cap).append`: append on the right, evicting from the left
when the deque is full. -/
def appendBounded {α : Type} (cap : ℕ) (h : List α) (p : α) : List α :=
  takeLast cap (h ++ [p])

theorem length_takeLast {α : Type} (cap : ℕ) (l : List α) :
    (takeLast cap l).length = l.length - (l.length - cap) := by
  simp [takeLast]

theorem takeLast_append_left {α : Type} (cap : ℕ) (xs ys : List α) :
    takeLast cap (takeLast cap xs ++ ys) = takeLast cap (xs ++ ys) := by
  unfold takeLast
  rw [← List.drop_append_of_le_length (by omega)]
  rw [List.drop_drop]
  congr 1
  simp [List.length_append, List.length_drop]
  omega

theorem length_appendBounded_le {α : Type} (cap : ℕ) (l : List α) (p : α) :
    (appendBounded cap l p).length ≤ cap := by
  rw [appendBounded, length_takeLast]
  omega

theorem foldl_appendBounded {α : Type} (cap : ℕ) (ps acc : List α)
    (hacc : acc.length ≤ cap) :
    List.foldl (appendBounded cap) acc ps = takeLast cap (acc ++ ps) := by
  induction ps generalizing acc with
  | nil =>
    have h0 : acc.length - cap = 0 := by omega
    simp [takeLast, h0]
  | cons p ps ih =>
    rw [List.foldl_cons, ih _ (length_appendBounded_le cap acc p), appendBounded,
      takeLast_append_left]
    simp

/-- Result of one `get_position` call: the returned value (`None` or a
Fix), the tracker state after the call, how many HTTP GET requests were
issued, and the total seconds spent in `time.sleep`. -/
structure GPOut where
  result : Option Fix
  state : Tracker
  requests : ℕ
  slept : ℚ
deriving DecidableEq, Repr

/-- The cache fallback read in `get_position`:
`boat_info = self.boats.get(boat_name)` followed by
`boat_info and boat_info.get('cached_position')` (a stored
`position_data` dict is never empty, hence always truthy). -/
def cacheFallback (tr : Tracker) (name : String) : Option Fix :=
  (dictGet name tr.boats).bind (fun b => b.cachedPosition)

/-- The boat-dict mutation `boat_info['cached_position'] = f`. -/
def cacheWith (f : Fix) (b : BoatInfo) : BoatInfo :=
  { b with cachedPosition := some f }

/-- Write `self.boats[boat_name]['cached_position'] = f` (the inner dict is
mutated in place; `boat_name` is present on every path that reaches this
write). -/
def setCache (name : String) (f : Fix) (bs : List (String × BoatInfo)) :
    List (String × BoatInfo) :=
  bs.map (fun nb => if nb.1 = name then (nb.1, cacheWith f nb.2) else nb)

/-- The two writes of the success path of `get_position`:
`self.last_update_time[boat_name] = current_time` and
`self.boats[boat_name]['cached_position'] = position_data`. -/
def recordSuccess (tr : Tracker) (name : String) (now : ℚ) (f : Fix) : Tracker :=
  { tr with
    boats := setCache name f tr.boats
    lastUpdateTime := dictSet name now tr.lastUpdateTime }

/-- Shared tail of `get_position` after the feed (or retry) response `r` is
in hand: `return None` on a non-200 status, on an undecodable body and on a
falsy `locations` list; otherwise build `position_data` from the first
location, update the cache and `last_update_time`, and return it. -/
def finishResponse (now : ℚ) (name : String) (tr : Tracker) (r : HttpResponse)
    (req : ℕ) (slept : ℚ) : GPOut :=
  if r.status ≠ 200 then ⟨none, tr, req, slept⟩
  else
    match r.body with
    | Body.invalid => ⟨none, tr, req, slept⟩
    | Body.valid [] => ⟨none, tr, req, slept⟩
    | Body.valid (loc :: _) => ⟨some loc, recordSuccess tr name now loc, req, slept⟩

/-- Seconds slept after the share-page GET returned a response: 5 extra on
a non-200 status (warning branch), plus the unconditional 2-second pause
before the feed GET. -/
def sleepAfterBase (rb : HttpResponse) : ℚ :=
  (if rb.status ≠ 200 then 5 else 0) + 2

/-- The body of `get_position` past the cache gate: look up the boat's
session (a `KeyError` on an unregistered name lands in the blanket
`except Exception` handler, which falls back to the cache), GET the share
page (a non-200 only logs a warning and sleeps 5), sleep 2, GET the feed,
on a 429 sleep 120 and GET the feed once more, then finish on the response
in hand.  A raised `Timeout` returns `None`; any other raised exception
falls back to the cached Fix if present, else `None`. -/
def liveFetch (env : FetchEnv) (now : ℚ) (name : String) (tr : Tracker) : GPOut :=
  match dictGet name tr.boats with
  | none => ⟨cacheFallback tr name, tr, 0, 0⟩
  | some _ =>
    match env.base with
    | ReqOutcome.timeout => ⟨none, tr, 1, 0⟩
    | ReqOutcome.error => ⟨cacheFallback tr name, tr, 1, 0⟩
    | ReqOutcome.ok rb =>
      match env.feed with
      | ReqOutcome.timeout => ⟨none, tr, 2, sleepAfterBase rb⟩
      | ReqOutcome.error => ⟨cacheFallback tr name, tr, 2, sleepAfterBase rb⟩
      | ReqOutcome.ok r =>
        if r.status = 429 then
          match env.retry with
          | ReqOutcome.timeout => ⟨none, tr, 3, sleepAfterBase rb + 120⟩
          | ReqOutcome.error => ⟨cacheFallback tr name, tr, 3, sleepAfterBase rb + 120⟩
          | ReqOutcome.ok r2 => finishResponse now name tr r2 3 (sleepAfterBase rb + 120)
        else finishResponse now name tr r 2 (sleepAfterBase rb)

/-- `get_position(share_id, boat_name)` at wall-clock time `now` with HTTP
oracle `env`.  The cache gate: when less than 300 seconds have elapsed
since `self.last_update_time.get(boat_name, 0)` and the boat has a truthy
`cached_position`, return the cached Fix with no network traffic;
otherwise run the live fetch. -/
def getPosition (env : FetchEnv) (now : ℚ) (name : String) (tr : Tracker) : GPOut :=
  if now - ((dictGet name tr.lastUpdateTime).getD 0) < 300 ∧ (cacheFallback tr name).isSome = true then
    ⟨cacheFallback tr name, tr, 0, 0⟩
  else liveFetch env now name tr

/-- `extract_share_id`: the trailing path segment of the share URL,
`garmin_url.split('/')[-1]`. -/
def extractShareId (url : String) : String :=
  (url.splitOn "/").getLastD ""

/-- `add_boat(name, garmin_share_url)`.  `random.choice(self.colors)` is
modelled by an arbitrary index `choice` (reduced modulo the palette size);
on an empty palette `random.choice` raises `IndexError`, modelled by
`none`.  The chosen colour is removed from the shared palette with
`self.colors.remove(color)` (first occurrence, like Python `list.remove`),
the boat entry is written into the `boats` dict, and
`self.last_update_time[name] = 0`. -/
def addBoat (choice : ℕ) (name url : String) (tr : Tracker) : Option Tracker :=
  match tr.colors with
  | [] => none
  | c :: cs =>
    let color := (c :: cs).getD (choice % (c :: cs).length) c
    some { tr with
      colors := (c :: cs).erase color
      boats := dictSet name ⟨extractShareId url, color, [], none, none⟩ tr.boats
      lastUpdateTime := dictSet name 0 tr.lastUpdateTime }

/-- A sequence of `add_boat` calls, each with its own `random.choice`
outcome, name and share URL; `none` as soon as one call raises. -/
def foldAdds : List (ℕ × String × String) → Tracker → Option Tracker
  | [], tr => some tr
  | a :: rest, tr => (addBoat a.1 a.2.1 a.2.2 tr).bind (foldAdds rest)

/-- The per-boat mutation of `update_boat_position` once `get_position`
returned a truthy `position`: append `[lat, lon]` to the bounded history
deque and store the position as `last_update`. -/
def fixWith (cap : ℕ) (f : Fix) (b : BoatInfo) : BoatInfo :=
  { b with
    history := appendBounded cap b.history (f.lat, f.lon)
    last_update := some f }

/-- Apply `fixWith` to the named boat inside the boats dict. -/
def applyFixUpdate (cap : ℕ) (name : String) (f : Fix)
    (bs : List (String × BoatInfo)) : List (String × BoatInfo) :=
  bs.map (fun nb => if nb.1 = name then (nb.1, fixWith cap f nb.2) else nb)

/-- The tail of `update_boat_position` on the outcome of `get_position`:
when the returned position is truthy (a `position_data` dict is never
empty), append its coordinates and store it as `last_update`. -/
def applyUpdate (name : String) (out : GPOut) : Tracker :=
  match out.result with
  | none => out.state
  | some f =>
    { out.state with boats := applyFixUpdate out.state.historyLength name f out.state.boats }

/-- `update_boat_position(boat_name, boat_info)`: call `get_position`; when
it returns a position, append its coordinates to the history and store it
as `last_update`.  The folium marker/path redraw is presentation-side and
not modelled. -/
def updateBoatPosition (env : FetchEnv) (now : ℚ) (name : String) (tr : Tracker) : Tracker :=
  applyUpdate name (getPosition env now name tr)

/-- Degrees to radians, `math.radians`. -/
noncomputable def radiansOf (d : ℝ) : ℝ :=
  d * Real.pi / 180

open Classical in
/-- Python `math.atan2 y x` over the reals. -/
noncomputable def atan2 (y x : ℝ) : ℝ :=
  if 0 < x then Real.arctan (y / x)
  else if x < 0 ∧ 0 ≤ y then Real.arctan (y / x) + Real.pi
  else if x < 0 then Real.arctan (y / x) - Real.pi
  else if 0 < y then Real.pi / 2
  else if y < 0 then -(Real.pi / 2)
  else 0

/-- The haversine intermediate `a` of `calculate_distance`:
`sin(dlat/2)**2 + cos(lat1) * cos(lat2) * sin(dlon/2)**2` after converting
all four inputs to radians. -/
noncomputable def hav (lat1 lon1 lat2 lon2 : ℚ) : ℝ :=
  Real.sin ((radiansOf lat2 - radiansOf lat1) / 2) ^ 2 +
    Real.cos (radiansOf lat1) * Real.cos (radiansOf lat2) *
      Real.sin ((radiansOf lon2 - radiansOf lon1) / 2) ^ 2

/-- `calculate_distance(lat1, lon1, lat2, lon2)`: haversine great-circle
distance with Earth radius 6 371 000 m, converted to nautical miles by
dividing by 1852. -/
noncomputable def calculateDistance (lat1 lon1 lat2 lon2 : ℚ) : ℝ :=
  6371000 *
      (2 * atan2 (Real.sqrt (hav lat1 lon1 lat2 lon2))
        (Real.sqrt (1 - hav lat1 lon1 lat2 lon2))) / 1852

/-- `nautical_miles_to_meters`. -/
def nauticalMilesToMeters (nm : ℚ) : ℚ :=
  nm * 1852

/-- The distance of a candidate (name, last_update Fix) from the Noronha
reference point, as computed inside `find_closest_boat_to_noronha`. -/
noncomputable def candScore (c : String × Fix) : ℝ :=
  calculateDistance noronhaCoords.1 noronhaCoords.2 c.2.lat c.2.lon

open Classical in
/-- The loop body of `find_closest_boat_to_noronha`: skip a boat whose
`last_update` is falsy, otherwise compare its distance to the running
minimum with strict `<` and keep the closer of the two. -/
noncomputable def closestStep (acc : Option String × Option Fix × WithTop ℝ)
    (nb : String × BoatInfo) : Option String × Option Fix × WithTop ℝ :=
  match nb.2.last_update with
  | none => acc
  | some pos =>
    if (calculateDistance noronhaCoords.1 noronhaCoords.2 pos.lat pos.lon :
          WithTop ℝ) < acc.2.2 then
      (some nb.1, some pos,
        (calculateDistance noronhaCoords.1 noronhaCoords.2 pos.lat pos.lon : WithTop ℝ))
    else acc

/-- `find_closest_boat_to_noronha`: scan the boats dict in insertion order
with `closestStep`; the running minimum starts at `float('inf')` (modelled
by the top element of `WithTop` of the reals) and the closest boat and its
position start at `None`. -/
noncomputable def findClosestBoatToNoronha (tr : Tracker) :
    Option String × Option Fix × WithTop ℝ :=
  tr.boats.foldl closestStep (none, none, ⊤)

/-- The candidate list of `find_closest_boat_to_noronha`: the boats with a
truthy `last_update`, in registration order, paired with that Fix. -/
def candidates (tr : Tracker) : List (String × Fix) :=
  tr.boats.filterMap (fun nb => nb.2.last_update.map (fun p => (nb.1, p)))

/-- The candidate distance as an element of the extended reals that the
running minimum of `find_closest_boat_to_noronha` lives in. -/
noncomputable def candScoreT (c : String × Fix) : WithTop ℝ :=
  (candScore c : ℝ)

open Classical in
/-- Abstract form of the strict-minimum selection loop: keep the new
element exactly when its score is strictly below the running minimum. -/
noncomputable def selStep {α : Type} (score : α → WithTop ℝ)
    (acc : Option α × WithTop ℝ) (c : α) : Option α × WithTop ℝ :=
  if score c < acc.2 then (some c, score c) else acc

/-- The minimum score of a list (top for the empty list). -/
noncomputable def minScoreList {α : Type} (score : α → WithTop ℝ) (cs : List α) : WithTop ℝ :=
  (cs.map score).foldr min ⊤

/-- Repackage the result of the abstract selection fold into the triple
shape returned by `find_closest_boat_to_noronha`. -/
noncomputable def reshape (r : Option (String × Fix) × WithTop ℝ) :
    Option String × Option Fix × WithTop ℝ :=
  (r.1.map (fun c => c.1), r.1.map (fun c => c.2), r.2)

/-- The colours currently assigned to registered boats, in registration
order. -/
def boatColors (tr : Tracker) : List String :=
  tr.boats.map (fun nb => nb.2.color)

/-- Colour bookkeeping invariant of the tracker: the remaining palette has
no duplicates, the assigned colours have no duplicates, no assigned colour
is still in the palette, and everything comes from the initial palette. -/
def ColorInv (tr : Tracker) : Prop :=
  tr.colors.Nodup ∧ (boatColors tr).Nodup ∧
    (∀ c ∈ boatColors tr, c ∉ tr.colors) ∧
    (∀ c ∈ boatColors tr, c ∈ initColors) ∧
    (∀ c ∈ tr.colors, c ∈ initColors)

/-- Concrete Fix used as a cached position in witnesses. -/
def fix0 : Fix := ⟨1, 2, 3, 4, 5, 6⟩

/-- Concrete Fix served by the feed in witnesses. -/
def fix1 : Fix := ⟨7, 8, 9, 1, 2, 3⟩

/-- A registered boat holding a cached position. -/
def boatCached : BoatInfo := ⟨"sid", "blue", [], none, some fix0⟩

/-- A registered boat with no cached position. -/
def boatFresh : BoatInfo := ⟨"sid", "blue", [], none, none⟩

/-- A tracker with one boat whose cache is warm (last fetch at time 0). -/
def trCached : Tracker := ⟨[("b", boatCached)], 100, [], [("b", 0)]⟩

/-- A tracker with one boat and a cold cache. -/
def trFresh : Tracker := ⟨[("b", boatFresh)], 100, [], [("b", 0)]⟩

/-- Oracle: everything healthy, the feed serves `fix1`. -/
def envOk : FetchEnv :=
  ⟨ReqOutcome.ok ⟨200, Body.valid []⟩, ReqOutcome.ok ⟨200, Body.valid [fix1]⟩,
    ReqOutcome.ok ⟨200, Body.valid []⟩⟩

/-- Oracle: the feed answers with a server error 500. -/
def env500 : FetchEnv :=
  ⟨ReqOutcome.ok ⟨200, Body.valid []⟩, ReqOutcome.ok ⟨500, Body.valid []⟩,
    ReqOutcome.ok ⟨200, Body.valid []⟩⟩

/-- Oracle: the feed answers 200 with an undecodable body. -/
def envBadBody : FetchEnv :=
  ⟨ReqOutcome.ok ⟨200, Body.valid []⟩, ReqOutcome.ok ⟨200, Body.invalid⟩,
    ReqOutcome.ok ⟨200, Body.valid []⟩⟩

/-- Oracle: the feed answers 200 with an empty locations list. -/
def envNoLoc : FetchEnv :=
  ⟨ReqOutcome.ok ⟨200, Body.valid []⟩, ReqOutcome.ok ⟨200, Body.valid []⟩,
    ReqOutcome.ok ⟨200, Body.valid []⟩⟩

/-- Oracle: the feed GET times out. -/
def envTimeout : FetchEnv :=
  ⟨ReqOutcome.ok ⟨200, Body.valid []⟩, ReqOutcome.timeout,
    ReqOutcome.ok ⟨200, Body.valid []⟩⟩

/-- Oracle: the feed GET raises a non-timeout exception. -/
def envErr : FetchEnv :=
  ⟨ReqOutcome.ok ⟨200, Body.valid []⟩, ReqOutcome.error,
    ReqOutcome.ok ⟨200, Body.valid []⟩⟩

/-- Oracle: the feed answers 429, the retry answers 200 with `fix1`. -/
def env429then200 : FetchEnv :=
  ⟨ReqOutcome.ok ⟨200, Body.valid []⟩, ReqOutcome.ok ⟨429, Body.valid []⟩,
    ReqOutcome.ok ⟨200, Body.valid [fix1]⟩⟩

/-- Oracle: the feed answers 429 and so does the retry. -/
def env429twice : FetchEnv :=
  ⟨ReqOutcome.ok ⟨200, Body.valid []⟩, ReqOutcome.ok ⟨429, Body.valid []⟩,
    ReqOutcome.ok ⟨429, Body.valid []⟩⟩

/-- Six registrations, each letting `random.choice` pick the head of the
remaining palette. -/
def adds6 : List (ℕ × String × String) :=
  [(0, "n1", "u1"), (0, "n2", "u2"), (0, "n3", "u3"),
    (0, "n4", "u4"), (0, "n5", "u5"), (0, "n6", "u6")]

/-- The tracker state after the six registrations of `adds6`. -/
def tr6 : Tracker :=
  ⟨[("n1", ⟨extractShareId "u1", "blue", [], none, none⟩),
    ("n2", ⟨extractShareId "u2", "red", [], none, none⟩),
    ("n3", ⟨extractShareId "u3", "green", [], none, none⟩),
    ("n4", ⟨extractShareId "u4", "purple", [], none, none⟩),
    ("n5", ⟨extractShareId "u5", "orange", [], none, none⟩),
    ("n6", ⟨extractShareId "u6", "darkred", [], none, none⟩)],
   100, [],
   [("n1", 0), ("n2", 0), ("n3", 0), ("n4", 0), ("n5", 0), ("n6", 0)]⟩

theorem dictGet_dictSet_self {β : Type} (k : String) (v : β) (m : List (String × β)) :
    dictGet k (dictSet k v m) = some v := by
  induction m with
  | nil => simp [dictGet, dictSet]
  | cons kv rest ih =>
    by_cases h : kv.1 = k
    · simp [dictGet, dictSet, h]
    · simp [dictGet, dictSet, h, ih]

theorem dictGet_mapAt {β : Type} (k : String) (g : β → β) (m : List (String × β)) :
    dictGet k (m.map (fun kv => if kv.1 = k then (kv.1, g kv.2) else kv)) =
      (dictGet k m).map g := by
  induction m with
  | nil => simp [dictGet]
  | cons kv rest ih =>
    by_cases h : kv.1 = k
    · simp [dictGet, h]
    · simp [dictGet, h, ih]

theorem dictGet_setCache (k : String) (f : Fix) (bs : List (String × BoatInfo)) :
    dictGet k (setCache k f bs) = (dictGet k bs).map (cacheWith f) := by
  unfold setCache
  exact dictGet_mapAt k (cacheWith f) bs

theorem dictGet_applyFixUpdate (cap : ℕ) (k : String) (f : Fix)
    (bs : List (String × BoatInfo)) :
    dictGet k (applyFixUpdate cap k f bs) = (dictGet k bs).map (fixWith cap f) := by
  unfold applyFixUpdate
  exact dictGet_mapAt k (fixWith cap f) bs

theorem liveFetch_no_boat (env : FetchEnv) (now : ℚ) (name : String) (tr : Tracker)
    (hlk : dictGet name tr.boats = none) :
    liveFetch env now name tr = ⟨cacheFallback tr name, tr, 0, 0⟩ := by
  unfold liveFetch
  rw [hlk]

theorem liveFetch_base_timeout (ef er : ReqOutcome) (now : ℚ) (name : String)
    (tr : Tracker) (b : BoatInfo) (hlk : dictGet name tr.boats = some b) :
    liveFetch ⟨ReqOutcome.timeout, ef, er⟩ now name tr = ⟨none, tr, 1, 0⟩ := by
  unfold liveFetch
  rw [hlk]

theorem liveFetch_base_error (ef er : ReqOutcome) (now : ℚ) (name : String)
    (tr : Tracker) (b : BoatInfo) (hlk : dictGet name tr.boats = some b) :
    liveFetch ⟨ReqOutcome.error, ef, er⟩ now name tr =
      ⟨cacheFallback tr name, tr, 1, 0⟩ := by
  unfold liveFetch
  rw [hlk]

theorem liveFetch_feed_timeout (rb : HttpResponse) (er : ReqOutcome) (now : ℚ)
    (name : String) (tr : Tracker) (b : BoatInfo)
    (hlk : dictGet name tr.boats = some b) :
    liveFetch ⟨ReqOutcome.ok rb, ReqOutcome.timeout, er⟩ now name tr =
      ⟨none, tr, 2, sleepAfterBase rb⟩ := by
  unfold liveFetch
  rw [hlk]

theorem liveFetch_feed_error (rb : HttpResponse) (er : ReqOutcome) (now : ℚ)
    (name : String) (tr : Tracker) (b : BoatInfo)
    (hlk : dictGet name tr.boats = some b) :
    liveFetch ⟨ReqOutcome.ok rb, ReqOutcome.error, er⟩ now name tr =
      ⟨cacheFallback tr name, tr, 2, sleepAfterBase rb⟩ := by
  unfold liveFetch
  rw [hlk]

theorem liveFetch_feed_ok (rb r : HttpResponse) (er : ReqOutcome) (now : ℚ)
    (name : String) (tr : Tracker) (b : BoatInfo)
    (hlk : dictGet name tr.boats = some b) :
    liveFetch ⟨ReqOutcome.ok rb, ReqOutcome.ok r, er⟩ now name tr =
      (if r.status = 429 then
        match er with
        | ReqOutcome.timeout => ⟨none, tr, 3, sleepAfterBase rb + 120⟩
        | ReqOutcome.error => ⟨cacheFallback tr name, tr, 3, sleepAfterBase rb + 120⟩
        | ReqOutcome.ok r2 => finishResponse now name tr r2 3 (sleepAfterBase rb + 120)
      else finishResponse now name tr r 2 (sleepAfterBase rb)) := by
  unfold liveFetch
  rw [hlk]

theorem finishResponse_cases (now : ℚ) (name : String) (tr : Tracker)
    (r : HttpResponse) (req : ℕ) (slept : ℚ) :
    (finishResponse now name tr r req slept).state = tr ∨
      ∃ f, (finishResponse now name tr r req slept).result = some f ∧
        (finishResponse now name tr r req slept).state = recordSuccess tr name now f := by
  unfold finishResponse
  by_cases hs : r.status ≠ 200
  · rw [if_pos hs]
    exact Or.inl rfl
  · rw [if_neg hs]
    cases hb : r.body with
    | invalid => exact Or.inl rfl
    | valid locs =>
      cases locs with
      | nil => exact Or.inl rfl
      | cons loc rest => exact Or.inr ⟨loc, rfl, rfl⟩

theorem liveFetch_state_cases (env : FetchEnv) (now : ℚ) (name : String) (tr : Tracker) :
    (liveFetch env now name tr).state = tr ∨
      ∃ f b, dictGet name tr.boats = some b ∧
        (liveFetch env now name tr).result = some f ∧
        (liveFetch env now name tr).state = recordSuccess tr name now f := by
  obtain ⟨eb, ef, er⟩ := env
  cases hlk : dictGet name tr.boats with
  | none => rw [liveFetch_no_boat ⟨eb, ef, er⟩ now name tr hlk]; exact Or.inl rfl
  | some b =>
    cases eb with
    | timeout => rw [liveFetch_base_timeout ef er now name tr b hlk]; exact Or.inl rfl
    | error => rw [liveFetch_base_error ef er now name tr b hlk]; exact Or.inl rfl
    | ok rb =>
      cases ef with
      | timeout => rw [liveFetch_feed_timeout rb er now name tr b hlk]; exact Or.inl rfl
      | error => rw [liveFetch_feed_error rb er now name tr b hlk]; exact Or.inl rfl
      | ok r =>
        rw [liveFetch_feed_ok rb r er now name tr b hlk]
        by_cases h429 : r.status = 429
        · rw [if_pos h429]
          cases er with
          | timeout => exact Or.inl rfl
          | error => exact Or.inl rfl
          | ok r2 =>
            rcases finishResponse_cases now name tr r2 3 (sleepAfterBase rb + 120) with
              h | ⟨f, h1, h2⟩
            · exact Or.inl h
            · exact Or.inr ⟨f, b, rfl, h1, h2⟩
        · rw [if_neg h429]
          rcases finishResponse_cases now name tr r 2 (sleepAfterBase rb) with
            h | ⟨f, h1, h2⟩
          · exact Or.inl h
          · exact Or.inr ⟨f, b, rfl, h1, h2⟩

theorem getPosition_state_cases (env : FetchEnv) (now : ℚ) (name : String) (tr : Tracker) :
    (getPosition env now name tr).state = tr ∨
      ∃ f b, dictGet name tr.boats = some b ∧
        (getPosition env now name tr).result = some f ∧
        (getPosition env now name tr).state = recordSuccess tr name now f := by
  unfold getPosition
  split
  · exact Or.inl rfl
  · exact liveFetch_state_cases env now name tr

theorem getPosition_gate (env : FetchEnv) (now : ℚ) (name : String) (tr : Tracker)
    (f : Fix) (hc : cacheFallback tr name = some f)
    (ht : now - ((dictGet name tr.lastUpdateTime).getD 0) < 300) :
    getPosition env now name tr = ⟨some f, tr, 0, 0⟩ := by
  unfold getPosition
  rw [if_pos ⟨ht, by rw [hc]; rfl⟩, hc]

theorem getPosition_not_gate (env : FetchEnv) (now : ℚ) (name : String) (tr : Tracker)
    (h : ¬(now - ((dictGet name tr.lastUpdateTime).getD 0) < 300 ∧
        (cacheFallback tr name).isSome = true)) :
    getPosition env now name tr = liveFetch env now name tr := by
  unfold getPosition
  rw [if_neg h]

theorem finishResponse_requests (now : ℚ) (name : String) (tr : Tracker)
    (r : HttpResponse) (req : ℕ) (slept : ℚ) :
    (finishResponse now name tr r req slept).requests = req := by
  unfold finishResponse
  split
  · rfl
  · split <;> rfl

theorem cacheFallback_recordSuccess (tr : Tracker) (name : String) (now : ℚ)
    (f : Fix) (b : BoatInfo) (hb : dictGet name tr.boats = some b) :
    cacheFallback (recordSuccess tr name now f) name = some f := by
  show (dictGet name (setCache name f tr.boats)).bind (fun x => x.cachedPosition) = some f
  rw [dictGet_setCache, hb]
  rfl

theorem lastUpdateTime_getD_recordSuccess (tr : Tracker) (name : String) (now : ℚ)
    (f : Fix) :
    (dictGet name (recordSuccess tr name now f).lastUpdateTime).getD 0 = now := by
  show (dictGet name (dictSet name now tr.lastUpdateTime)).getD 0 = now
  rw [dictGet_dictSet_self]
  rfl

theorem applyUpdate_some (name : String) (out : GPOut) (f : Fix)
    (hres : out.result = some f) :
    applyUpdate name out =
      { out.state with
        boats := applyFixUpdate out.state.historyLength name f out.state.boats } := by
  obtain ⟨res, st, n, s⟩ := out
  cases hres
  rfl

theorem applyUpdate_none (name : String) (out : GPOut) (hres : out.result = none) :
    applyUpdate name out = out.state := by
  obtain ⟨res, st, n, s⟩ := out
  cases hres
  rfl

/-- C8: on every failure path (cooldown miss with failed fetch, timeout, or
any raised exception) `get_position` leaves the tracker state — in
particular the vessel's `cached_position` and `last_update_time` — exactly
as it found it; the state changes only when a live fetch succeeds, and then
`cached_position` and `last_update_time` are written together
(`recordSuccess`). -/
theorem get_position_atomic_update (env : FetchEnv) (now : ℚ) (name : String)
    (tr : Tracker) :
    (getPosition env now name tr).state = tr ∨
      ∃ f, (getPosition env now name tr).result = some f ∧
        (getPosition env now name tr).state = recordSuccess tr name now f := by
  rcases getPosition_state_cases env now name tr with h | ⟨f, b, _, h1, h2⟩
  · exact Or.inl h
  · exact Or.inr ⟨f, h1, h2⟩

/-- C2: if less than 300 seconds have elapsed since the vessel's recorded
last fetch time and a cached Fix exists, `get_position` returns the cached
Fix with zero HTTP requests and an unchanged state; consequently, after a
live success at time `t1`, a second call within the cooldown window issues
no network call and returns the same Fix, so the two calls together issue
only the first call's network traffic. -/
theorem cooldown_returns_cache_without_network (env1 env2 : FetchEnv) (t1 t2 : ℚ)
    (name : String) (tr : Tracker) :
    (∀ f, cacheFallback tr name = some f →
      t1 - ((dictGet name tr.lastUpdateTime).getD 0) < 300 →
      getPosition env1 t1 name tr = ⟨some f, tr, 0, 0⟩) ∧
    (∀ f, (getPosition env1 t1 name tr).result = some f →
      (getPosition env1 t1 name tr).state ≠ tr →
      t2 - t1 < 300 →
      getPosition env2 t2 name (getPosition env1 t1 name tr).state =
        ⟨some f, (getPosition env1 t1 name tr).state, 0, 0⟩) := by
  constructor
  · intro f hc ht
    exact getPosition_gate env1 t1 name tr f hc ht
  · intro f hres hne ht
    rcases getPosition_state_cases env1 t1 name tr with h | ⟨f', b, hb, h1, h2⟩
    · exact absurd h hne
    · rw [hres] at h1
      obtain rfl : f = f' := Option.some_inj.mp h1
      rw [h2]
      apply getPosition_gate
      · exact cacheFallback_recordSuccess tr name t1 f b hb
      · rw [lastUpdateTime_getD_recordSuccess]
        exact ht

theorem getPosition_trFresh_eval :
    getPosition envOk 1000 "b" trFresh =
      ⟨some fix1, recordSuccess trFresh "b" 1000 fix1, 2,
        sleepAfterBase ⟨200, Body.valid []⟩⟩ := by
  have hg : ¬(1000 - ((dictGet "b" trFresh.lastUpdateTime).getD 0) < 300 ∧
      (cacheFallback trFresh "b").isSome = true) := by
    norm_num [trFresh, dictGet, cacheFallback, boatFresh]
  rw [getPosition_not_gate envOk 1000 "b" trFresh hg]
  rw [show envOk = ⟨ReqOutcome.ok ⟨200, Body.valid []⟩,
      ReqOutcome.ok ⟨200, Body.valid [fix1]⟩, ReqOutcome.ok ⟨200, Body.valid []⟩⟩ from rfl]
  rw [liveFetch_feed_ok ⟨200, Body.valid []⟩ ⟨200, Body.valid [fix1]⟩
      (ReqOutcome.ok ⟨200, Body.valid []⟩) 1000 "b" trFresh boatFresh (by decide)]
  rw [if_neg (by decide)]
  unfold finishResponse
  rw [if_neg (by decide)]

/-- Witness for `cooldown_returns_cache_without_network`: a warm cache at
time 100 is served with no requests; after a live success at time 1000, a
call at time 1100 is served from cache with no requests. -/
theorem cooldown_returns_cache_without_network_witness :
    getPosition envOk 100 "b" trCached = ⟨some fix0, trCached, 0, 0⟩ ∧
      getPosition envOk 1100 "b" (getPosition envOk 1000 "b" trFresh).state =
        ⟨some fix1, (getPosition envOk 1000 "b" trFresh).state, 0, 0⟩ :=
  ⟨(cooldown_returns_cache_without_network envOk envOk 100 0 "b" trCached).1 fix0
      (by decide) (by norm_num [trCached, dictGet]),
    (cooldown_returns_cache_without_network envOk envOk 1000 1100 "b" trFresh).2 fix1
      (by rw [getPosition_trFresh_eval])
      (by rw [getPosition_trFresh_eval]; decide)
      (by norm_num)⟩

/-- C10: when the cooldown window is still active but the vessel has no
cached position, `get_position` does not return early: it behaves exactly
as the live fetch (as if the cooldown had expired) and issues at least one
HTTP request. -/
theorem cooldown_without_cache_live_fetch (env : FetchEnv) (now : ℚ) (name : String)
    (tr : Tracker) (b : BoatInfo) (hb : dictGet name tr.boats = some b)
    (hnc : b.cachedPosition = none)
    (ht : now - ((dictGet name tr.lastUpdateTime).getD 0) < 300) :
    getPosition env now name tr = liveFetch env now name tr ∧
      1 ≤ (liveFetch env now name tr).requests := by
  have hcf : cacheFallback tr name = none := by
    unfold cacheFallback
    rw [hb]
    simpa using hnc
  constructor
  · apply getPosition_not_gate
    intro hcontra
    rw [hcf] at hcontra
    simpa using hcontra.2
  · obtain ⟨eb, ef, er⟩ := env
    cases eb with
    | timeout =>
      rw [liveFetch_base_timeout ef er now name tr b hb]
    | error =>
      rw [liveFetch_base_error ef er now name tr b hb]
    | ok rb =>
      cases ef with
      | timeout =>
        rw [liveFetch_feed_timeout rb er now name tr b hb]
        exact (by decide : (1 : ℕ) ≤ 2)
      | error =>
        rw [liveFetch_feed_error rb er now name tr b hb]
        exact (by decide : (1 : ℕ) ≤ 2)
      | ok r =>
        rw [liveFetch_feed_ok rb r er now name tr b hb]
        by_cases h429 : r.status = 429
        · rw [if_pos h429]
          cases er with
          | timeout => exact (by decide : (1 : ℕ) ≤ 3)
          | error => exact (by decide : (1 : ℕ) ≤ 3)
          | ok r2 =>
            rw [finishResponse_requests]
            exact (by decide : (1 : ℕ) ≤ 3)
        · rw [if_neg h429, finishResponse_requests]
          exact (by decide : (1 : ℕ) ≤ 2)

/-- Witness for `cooldown_without_cache_live_fetch`: at time 100 the window
since fetch-time 0 is active, the boat has no cache, and the call equals
the live fetch, issuing requests. -/
theorem cooldown_without_cache_live_fetch_witness :
    getPosition envOk 100 "b" trFresh = liveFetch envOk 100 "b" trFresh ∧
      1 ≤ (liveFetch envOk 100 "b" trFresh).requests :=
  cooldown_without_cache_live_fetch envOk 100 "b" trFresh boatFresh
    (by decide) (by decide) (by norm_num [trFresh, dictGet])

/-- C1 is false as stated: at this concrete input the fetch fails (the feed
answers HTTP 500) and a cached Fix exists, yet `get_position` returns
`None` rather than the cached Fix — the explicit non-200, bad-body,
missing-locations and timeout paths all `return None` without consulting
the cache. -/
theorem get_position_failure_ignores_cache_cex :
    cacheFallback trCached "b" = some fix0 ∧
      (getPosition env500 1000 "b" trCached).result = none := by
  constructor
  · decide
  · have hg : ¬(1000 - ((dictGet "b" trCached.lastUpdateTime).getD 0) < 300 ∧
        (cacheFallback trCached "b").isSome = true) := by
      norm_num [trCached, dictGet]
    rw [getPosition_not_gate env500 1000 "b" trCached hg]
    rw [show env500 = ⟨ReqOutcome.ok ⟨200, Body.valid []⟩,
        ReqOutcome.ok ⟨500, Body.valid []⟩, ReqOutcome.ok ⟨200, Body.valid []⟩⟩ from rfl]
    rw [liveFetch_feed_ok ⟨200, Body.valid []⟩ ⟨500, Body.valid []⟩
        (ReqOutcome.ok ⟨200, Body.valid []⟩) 1000 "b" trCached boatCached (by decide)]
    rw [if_neg (by decide)]
    unfold finishResponse
    rw [if_pos (by decide)]

/-- C1 (amended): when the live fetch fails with a non-success status, an
undecodable body, an absent location payload, or a timeout, `get_position`
returns `None` and leaves the state unchanged even when a cached Fix
exists; the cached Fix is used as a fallback only when the fetch raises an
unexpected (non-timeout) exception.  `get_position` is a total function of
its inputs, so no failure escapes as an exception. -/
theorem get_position_failure_paths (env : FetchEnv) (now : ℚ) (name : String)
    (tr : Tracker) (b : BoatInfo) (rb : HttpResponse)
    (hgate : ¬(now - ((dictGet name tr.lastUpdateTime).getD 0) < 300 ∧
        (cacheFallback tr name).isSome = true))
    (hb : dictGet name tr.boats = some b)
    (hbase : env.base = ReqOutcome.ok rb) :
    (∀ r, env.feed = ReqOutcome.ok r → r.status ≠ 200 → r.status ≠ 429 →
      getPosition env now name tr = ⟨none, tr, 2, sleepAfterBase rb⟩) ∧
    (∀ r, env.feed = ReqOutcome.ok r → r.status = 200 → r.body = Body.invalid →
      getPosition env now name tr = ⟨none, tr, 2, sleepAfterBase rb⟩) ∧
    (∀ r, env.feed = ReqOutcome.ok r → r.status = 200 → r.body = Body.valid [] →
      getPosition env now name tr = ⟨none, tr, 2, sleepAfterBase rb⟩) ∧
    (env.feed = ReqOutcome.timeout →
      getPosition env now name tr = ⟨none, tr, 2, sleepAfterBase rb⟩) ∧
    (env.feed = ReqOutcome.error →
      getPosition env now name tr = ⟨cacheFallback tr name, tr, 2, sleepAfterBase rb⟩) := by
  have hlive := getPosition_not_gate env now name tr hgate
  refine ⟨?_, ?_, ?_, ?_, ?_⟩
  · intro r hfeed hs hs429
    have henv : env = ⟨ReqOutcome.ok rb, ReqOutcome.ok r, env.retry⟩ := by
      rw [← hbase, ← hfeed]
    rw [hlive, henv, liveFetch_feed_ok rb r env.retry now name tr b hb, if_neg hs429]
    unfold finishResponse
    rw [if_pos hs]
  · intro r hfeed hs200 hbody
    have henv : env = ⟨ReqOutcome.ok rb, ReqOutcome.ok r, env.retry⟩ := by
      rw [← hbase, ← hfeed]
    rw [hlive, henv, liveFetch_feed_ok rb r env.retry now name tr b hb,
      if_neg (by rw [hs200]; decide)]
    unfold finishResponse
    rw [if_neg (by rw [hs200]; decide), hbody]
  · intro r hfeed hs200 hbody
    have henv : env = ⟨ReqOutcome.ok rb, ReqOutcome.ok r, env.retry⟩ := by
      rw [← hbase, ← hfeed]
    rw [hlive, henv, liveFetch_feed_ok rb r env.retry now name tr b hb,
      if_neg (by rw [hs200]; decide)]
    unfold finishResponse
    rw [if_neg (by rw [hs200]; decide), hbody]
  · intro hfeed
    have henv : env = ⟨ReqOutcome.ok rb, ReqOutcome.timeout, env.retry⟩ := by
      rw [← hbase, ← hfeed]
    rw [hlive, henv, liveFetch_feed_timeout rb env.retry now name tr b hb]
  · intro hfeed
    have henv : env = ⟨ReqOutcome.ok rb, ReqOutcome.error, env.retry⟩ := by
      rw [← hbase, ← hfeed]
    rw [hlive, henv, liveFetch_feed_error rb env.retry now name tr b hb]

/-- Witness for `get_position_failure_paths`: all five failure modes at
time 1000 on a boat with a warm cache. -/
theorem get_position_failure_paths_witness :
    getPosition env500 1000 "b" trCached =
        ⟨none, trCached, 2, sleepAfterBase ⟨200, Body.valid []⟩⟩ ∧
      getPosition envBadBody 1000 "b" trCached =
        ⟨none, trCached, 2, sleepAfterBase ⟨200, Body.valid []⟩⟩ ∧
      getPosition envNoLoc 1000 "b" trCached =
        ⟨none, trCached, 2, sleepAfterBase ⟨200, Body.valid []⟩⟩ ∧
      getPosition envTimeout 1000 "b" trCached =
        ⟨none, trCached, 2, sleepAfterBase ⟨200, Body.valid []⟩⟩ ∧
      getPosition envErr 1000 "b" trCached =
        ⟨cacheFallback trCached "b", trCached, 2, sleepAfterBase ⟨200, Body.valid []⟩⟩ :=
  ⟨(get_position_failure_paths env500 1000 "b" trCached boatCached ⟨200, Body.valid []⟩
      (by norm_num [trCached, dictGet]) (by decide) rfl).1
      ⟨500, Body.valid []⟩ rfl (by decide) (by decide),
    (get_position_failure_paths envBadBody 1000 "b" trCached boatCached ⟨200, Body.valid []⟩
      (by norm_num [trCached, dictGet]) (by decide) rfl).2.1
      ⟨200, Body.invalid⟩ rfl rfl rfl,
    (get_position_failure_paths envNoLoc 1000 "b" trCached boatCached ⟨200, Body.valid []⟩
      (by norm_num [trCached, dictGet]) (by decide) rfl).2.2.1
      ⟨200, Body.valid []⟩ rfl rfl rfl,
    (get_position_failure_paths envTimeout 1000 "b" trCached boatCached ⟨200, Body.valid []⟩
      (by norm_num [trCached, dictGet]) (by decide) rfl).2.2.2.1 rfl,
    (get_position_failure_paths envErr 1000 "b" trCached boatCached ⟨200, Body.valid []⟩
      (by norm_num [trCached, dictGet]) (by decide) rfl).2.2.2.2 rfl⟩

/-- C3: when the feed GET answers 429, `get_position` sleeps the fixed
120-second backoff and retries exactly once (three requests total); if the
retry answers 200 with a usable body the fetch succeeds with the second
response's Fix and reports no failure; if the retry answers 429 again it is
not re-checked — the status test fails and the fetch returns `None` for
this cycle. -/
theorem rate_limit_retry_once (env : FetchEnv) (now : ℚ) (name : String)
    (tr : Tracker) (b : BoatInfo) (rb r : HttpResponse)
    (hgate : ¬(now - ((dictGet name tr.lastUpdateTime).getD 0) < 300 ∧
        (cacheFallback tr name).isSome = true))
    (hb : dictGet name tr.boats = some b)
    (hbase : env.base = ReqOutcome.ok rb)
    (hfeed : env.feed = ReqOutcome.ok r)
    (h429 : r.status = 429) :
    (∀ r2 f fs, env.retry = ReqOutcome.ok r2 → r2.status = 200 →
        r2.body = Body.valid (f :: fs) →
        getPosition env now name tr =
          ⟨some f, recordSuccess tr name now f, 3, sleepAfterBase rb + 120⟩) ∧
    (∀ r2, env.retry = ReqOutcome.ok r2 → r2.status = 429 →
        getPosition env now name tr = ⟨none, tr, 3, sleepAfterBase rb + 120⟩) := by
  have hlive := getPosition_not_gate env now name tr hgate
  constructor
  · intro r2 f fs hretry hs200 hbody
    have henv : env = ⟨ReqOutcome.ok rb, ReqOutcome.ok r, ReqOutcome.ok r2⟩ := by
      rw [← hbase, ← hfeed, ← hretry]
    rw [hlive, henv, liveFetch_feed_ok rb r (ReqOutcome.ok r2) now name tr b hb,
      if_pos h429]
    show finishResponse now name tr r2 3 (sleepAfterBase rb + 120) = _
    unfold finishResponse
    rw [if_neg (by rw [hs200]; decide), hbody]
  · intro r2 hretry hs429
    have henv : env = ⟨ReqOutcome.ok rb, ReqOutcome.ok r, ReqOutcome.ok r2⟩ := by
      rw [← hbase, ← hfeed, ← hretry]
    rw [hlive, henv, liveFetch_feed_ok rb r (ReqOutcome.ok r2) now name tr b hb,
      if_pos h429]
    show finishResponse now name tr r2 3 (sleepAfterBase rb + 120) = _
    unfold finishResponse
    rw [if_pos (by rw [hs429]; decide)]

/-- Witness for `rate_limit_retry_once`: a 429 followed by a 200 succeeds
with the retry's Fix after a 120-second backoff; a 429 followed by another
429 fails for the cycle. -/
theorem rate_limit_retry_once_witness :
    getPosition env429then200 1000 "b" trCached =
        ⟨some fix1, recordSuccess trCached "b" 1000 fix1, 3,
          sleepAfterBase ⟨200, Body.valid []⟩ + 120⟩ ∧
      getPosition env429twice 1000 "b" trCached =
        ⟨none, trCached, 3, sleepAfterBase ⟨200, Body.valid []⟩ + 120⟩ :=
  ⟨(rate_limit_retry_once env429then200 1000 "b" trCached boatCached
      ⟨200, Body.valid []⟩ ⟨429, Body.valid []⟩
      (by norm_num [trCached, dictGet]) (by decide) rfl rfl rfl).1
      ⟨200, Body.valid [fix1]⟩ fix1 [] rfl rfl rfl,
    (rate_limit_retry_once env429twice 1000 "b" trCached boatCached
      ⟨200, Body.valid []⟩ ⟨429, Body.valid []⟩
      (by norm_num [trCached, dictGet]) (by decide) rfl rfl rfl).2
      ⟨429, Body.valid []⟩ rfl rfl⟩

theorem dictGet_updateBoat (env : FetchEnv) (now : ℚ) (name : String) (tr : Tracker)
    (f : Fix) (hres : (getPosition env now name tr).result = some f) :
    (updateBoatPosition env now name tr).boats =
      applyFixUpdate (getPosition env now name tr).state.historyLength name f
        (getPosition env now name tr).state.boats := by
  unfold updateBoatPosition
  rw [applyUpdate_some name (getPosition env now name tr) f hres]

theorem getPosition_state_fields (env : FetchEnv) (now : ℚ) (name : String)
    (tr : Tracker) :
    (getPosition env now name tr).state.historyLength = tr.historyLength ∧
      ∀ b, dictGet name tr.boats = some b →
        ∃ b', dictGet name (getPosition env now name tr).state.boats = some b' ∧
          b'.history = b.history ∧ b'.last_update = b.last_update := by
  rcases getPosition_state_cases env now name tr with h | ⟨f, b0, hb0, h1, h2⟩
  · rw [h]
    exact ⟨rfl, fun b hb => ⟨b, hb, rfl, rfl⟩⟩
  · rw [h2]
    refine ⟨rfl, fun b hb => ⟨cacheWith f b, ?_, rfl, rfl⟩⟩
    show dictGet name (setCache name f tr.boats) = some (cacheWith f b)
    rw [dictGet_setCache, hb]
    rfl

/-- C9: `update_boat_position` appends the coordinates of whatever
`get_position` returns to the vessel's history and stores it as
`last_update` — including positions served from the cache; consequently two
refresh cycles inside the cooldown window append the same cached
coordinates twice. -/
theorem update_appends_returned_coordinates (env1 env2 : FetchEnv) (t1 t2 : ℚ)
    (name : String) (tr : Tracker) :
    (∀ b f, dictGet name tr.boats = some b →
      (getPosition env1 t1 name tr).result = some f →
      (dictGet name (updateBoatPosition env1 t1 name tr).boats).map
          (fun bi => (bi.history, bi.last_update)) =
        some (appendBounded tr.historyLength b.history (f.lat, f.lon), some f)) ∧
    (∀ b f, dictGet name tr.boats = some b → b.cachedPosition = some f →
      t1 - ((dictGet name tr.lastUpdateTime).getD 0) < 300 →
      t2 - ((dictGet name tr.lastUpdateTime).getD 0) < 300 →
      (dictGet name (updateBoatPosition env2 t2 name
          (updateBoatPosition env1 t1 name tr)).boats).map (fun bi => bi.history) =
        some (appendBounded tr.historyLength
          (appendBounded tr.historyLength b.history (f.lat, f.lon)) (f.lat, f.lon))) := by
  constructor
  · intro b f hb hres
    obtain ⟨hcap, hfields⟩ := getPosition_state_fields env1 t1 name tr
    obtain ⟨b', hb', hhist, hlu⟩ := hfields b hb
    rw [dictGet_updateBoat env1 t1 name tr f hres, dictGet_applyFixUpdate, hb']
    simp [fixWith, hcap, hhist]
  · intro b f hb hc ht1 ht2
    have hcf : cacheFallback tr name = some f := by
      unfold cacheFallback
      rw [hb]
      simpa using hc
    have h1 : getPosition env1 t1 name tr = ⟨some f, tr, 0, 0⟩ :=
      getPosition_gate env1 t1 name tr f hcf ht1
    have hu1 : updateBoatPosition env1 t1 name tr =
        { tr with boats := applyFixUpdate tr.historyLength name f tr.boats } := by
      unfold updateBoatPosition
      rw [h1, applyUpdate_some name ⟨some f, tr, 0, 0⟩ f rfl]
    have hu1get : dictGet name (updateBoatPosition env1 t1 name tr).boats =
        some (fixWith tr.historyLength f b) := by
      rw [hu1]
      show dictGet name (applyFixUpdate tr.historyLength name f tr.boats) = _
      rw [dictGet_applyFixUpdate, hb]
      rfl
    have hcf2 : cacheFallback (updateBoatPosition env1 t1 name tr) name = some f := by
      unfold cacheFallback
      rw [hu1get]
      simpa [fixWith] using hc
    have hlut : (updateBoatPosition env1 t1 name tr).lastUpdateTime =
        tr.lastUpdateTime := by
      rw [hu1]
    have ht2' : t2 - ((dictGet name
        (updateBoatPosition env1 t1 name tr).lastUpdateTime).getD 0) < 300 := by
      rw [hlut]
      exact ht2
    have h2 : getPosition env2 t2 name (updateBoatPosition env1 t1 name tr) =
        ⟨some f, updateBoatPosition env1 t1 name tr, 0, 0⟩ :=
      getPosition_gate env2 t2 name _ f hcf2 ht2'
    have hcap1 : (updateBoatPosition env1 t1 name tr).historyLength =
        tr.historyLength := by
      rw [hu1]
    have hu2 : updateBoatPosition env2 t2 name (updateBoatPosition env1 t1 name tr) =
        { updateBoatPosition env1 t1 name tr with
          boats := applyFixUpdate (updateBoatPosition env1 t1 name tr).historyLength
            name f (updateBoatPosition env1 t1 name tr).boats } := by
      show applyUpdate name (getPosition env2 t2 name
        (updateBoatPosition env1 t1 name tr)) = _
      rw [h2, applyUpdate_some name
        ⟨some f, updateBoatPosition env1 t1 name tr, 0, 0⟩ f rfl]
    rw [hu2]
    show (dictGet name (applyFixUpdate
        (updateBoatPosition env1 t1 name tr).historyLength name f
        (updateBoatPosition env1 t1 name tr).boats)).map (fun bi => bi.history) = _
    rw [dictGet_applyFixUpdate, hu1get, hcap1]
    simp [fixWith]

/-- Witness for `update_appends_returned_coordinates`: a live success is
appended to the history, and two cache-served refreshes within the cooldown
append the same cached coordinates twice. -/
theorem update_appends_returned_coordinates_witness :
    (dictGet "b" (updateBoatPosition envOk 1000 "b" trFresh).boats).map
        (fun bi => (bi.history, bi.last_update)) =
      some (appendBounded trFresh.historyLength boatFresh.history
        (fix1.lat, fix1.lon), some fix1) ∧
      (dictGet "b" (updateBoatPosition envOk 200 "b"
          (updateBoatPosition envOk 100 "b" trCached)).boats).map
          (fun bi => bi.history) =
        some (appendBounded trCached.historyLength
          (appendBounded trCached.historyLength boatCached.history
            (fix0.lat, fix0.lon)) (fix0.lat, fix0.lon)) :=
  ⟨(update_appends_returned_coordinates envOk envOk 1000 0 "b" trFresh).1 boatFresh fix1
      (by decide) (by rw [getPosition_trFresh_eval]),
    (update_appends_returned_coordinates envOk envOk 100 200 "b" trCached).2 boatCached
      fix0 (by decide) (by decide) (by norm_num [trCached, dictGet])
      (by norm_num [trCached, dictGet])⟩

/-- C7: `calculate_distance` is symmetric: swapping the two points does not
change the computed distance (the haversine intermediate `a` is symmetric
because squaring absorbs the sign of the differences and the cosine product
commutes). -/
theorem calculate_distance_symm (lat1 lon1 lat2 lon2 : ℚ) :
    calculateDistance lat1 lon1 lat2 lon2 = calculateDistance lat2 lon2 lat1 lon1 := by
  have hs : ∀ x y : ℝ, Real.sin ((x - y) / 2) ^ 2 = Real.sin ((y - x) / 2) ^ 2 := by
    intro x y
    have hx : (x - y) / 2 = -((y - x) / 2) := by ring
    rw [hx, Real.sin_neg, neg_sq]
  have hhav : hav lat1 lon1 lat2 lon2 = hav lat2 lon2 lat1 lon1 := by
    unfold hav
    rw [hs (radiansOf lat2) (radiansOf lat1), hs (radiansOf lon2) (radiansOf lon1)]
    ring
  unfold calculateDistance
  rw [hhav]

theorem minScoreList_nil {α : Type} (score : α → WithTop ℝ) :
    minScoreList score ([] : List α) = ⊤ :=
  rfl

theorem minScoreList_cons {α : Type} (score : α → WithTop ℝ) (c : α) (cs : List α) :
    minScoreList score (c :: cs) = min (score c) (minScoreList score cs) :=
  rfl

open Classical in
theorem foldl_selStep {α : Type} (score : α → WithTop ℝ) (cs : List α)
    (o : Option α) (m : WithTop ℝ) :
    (minScoreList score cs < m →
      ∃ c, cs.find? (fun c => decide (score c = minScoreList score cs)) = some c ∧
        cs.foldl (selStep score) (o, m) = (some c, minScoreList score cs)) ∧
    (¬ minScoreList score cs < m → cs.foldl (selStep score) (o, m) = (o, m)) := by
  induction cs generalizing o m with
  | nil =>
    constructor
    · intro h
      rw [minScoreList_nil] at h
      exact absurd h not_top_lt
    · intro _
      rfl
  | cons c cs ih =>
    constructor
    · intro hlt
      rw [minScoreList_cons] at hlt
      by_cases hc : score c < m
      · have hstep : selStep score (o, m) c = (some c, score c) := by
          simp [selStep, hc]
        rw [List.foldl_cons, hstep]
        by_cases hcs : minScoreList score cs < score c
        · have hmeq : minScoreList score (c :: cs) = minScoreList score cs := by
            rw [minScoreList_cons]
            exact min_eq_right (le_of_lt hcs)
          obtain ⟨c', hfind, hfold⟩ := (ih (some c) (score c)).1 hcs
          refine ⟨c', ?_, ?_⟩
          · rw [hmeq, List.find?_cons_of_neg, hfind]
            simp only [decide_eq_true_eq]
            exact ne_of_gt hcs
          · rw [hmeq]
            exact hfold
        · have hle : score c ≤ minScoreList score cs := le_of_not_lt hcs
          have hmeq : minScoreList score (c :: cs) = score c := by
            rw [minScoreList_cons]
            exact min_eq_left hle
          refine ⟨c, ?_, ?_⟩
          · rw [hmeq, List.find?_cons_of_pos]
            simp
          · rw [hmeq]
            exact (ih (some c) (score c)).2 hcs
      · have hstep : selStep score (o, m) c = (o, m) := by
          simp [selStep, hc]
        rw [List.foldl_cons, hstep]
        have hm_le : m ≤ score c := le_of_not_lt hc
        have hcs : minScoreList score cs < m := by
          rcases min_lt_iff.mp hlt with h | h
          · exact absurd h hc
          · exact h
        obtain ⟨c', hfind, hfold⟩ := (ih o m).1 hcs
        have hmeq : minScoreList score (c :: cs) = minScoreList score cs := by
          rw [minScoreList_cons]
          exact min_eq_right (le_of_lt (lt_of_lt_of_le hcs hm_le))
        refine ⟨c', ?_, ?_⟩
        · rw [hmeq, List.find?_cons_of_neg, hfind]
          simp only [decide_eq_true_eq]
          exact ne_of_gt (lt_of_lt_of_le hcs hm_le)
        · rw [hmeq]
          exact hfold
    · intro hnlt
      rw [minScoreList_cons] at hnlt
      have h1 : ¬ score c < m := fun h => hnlt (min_lt_iff.mpr (Or.inl h))
      have h2 : ¬ minScoreList score cs < m := fun h => hnlt (min_lt_iff.mpr (Or.inr h))
      have hstep : selStep score (o, m) c = (o, m) := by
        simp [selStep, h1]
      rw [List.foldl_cons, hstep]
      exact (ih o m).2 h2

open Classical in
theorem closestStep_foldl_rel (bs : List (String × BoatInfo))
    (o : Option (String × Fix)) (m : WithTop ℝ) :
    bs.foldl closestStep (reshape (o, m)) =
      reshape ((bs.filterMap (fun nb => nb.2.last_update.map (fun p => (nb.1, p)))).foldl
        (selStep candScoreT) (o, m)) := by
  induction bs generalizing o m with
  | nil => rfl
  | cons nb bs ih =>
    rw [List.foldl_cons, List.filterMap_cons]
    cases hlu : nb.2.last_update with
    | none =>
      have hstep : closestStep (reshape (o, m)) nb = reshape (o, m) := by
        unfold closestStep
        rw [hlu]
      rw [hstep]
      exact ih o m
    | some pos =>
      have key : closestStep (reshape (o, m)) nb =
          reshape (selStep candScoreT (o, m) (nb.1, pos)) := by
        by_cases hd : (calculateDistance noronhaCoords.1 noronhaCoords.2
            pos.lat pos.lon : WithTop ℝ) < m
        · simp [closestStep, selStep, hlu, reshape, candScoreT, candScore, hd]
        · simp [closestStep, selStep, hlu, reshape, candScoreT, candScore, hd]
      rw [key]
      exact ih (selStep candScoreT (o, m) (nb.1, pos)).1
        (selStep candScoreT (o, m) (nb.1, pos)).2

open Classical in
theorem findClosest_eq_selFold (tr : Tracker) :
    findClosestBoatToNoronha tr =
      reshape ((candidates tr).foldl (selStep candScoreT) (none, ⊤)) := by
  unfold findClosestBoatToNoronha candidates
  exact closestStep_foldl_rel tr.boats none ⊤

open Classical in
/-- C4: `find_closest_boat_to_noronha` considers exactly the boats with a
truthy `last_update` (the `candidates`), computes the haversine distance
from the Noronha reference point to each (`candScoreT`), and returns the
first-registered candidate attaining the minimum distance — the strict `<`
comparison makes earlier-registered boats win ties; if no boat has a Fix
the result is `(none, none, ∞)`. -/
theorem find_closest_boat_characterization (tr : Tracker) :
    findClosestBoatToNoronha tr =
      match (candidates tr).find?
          (fun c => decide (candScoreT c = minScoreList candScoreT (candidates tr))) with
      | none => (none, none, ⊤)
      | some c => (some c.1, some c.2, minScoreList candScoreT (candidates tr)) := by
  rw [findClosest_eq_selFold]
  cases hcs : candidates tr with
  | nil => rfl
  | cons c0 cs0 =>
    have hlt : minScoreList candScoreT (c0 :: cs0) < ⊤ := by
      calc minScoreList candScoreT (c0 :: cs0) ≤ candScoreT c0 := by
            rw [minScoreList_cons]
            exact min_le_left _ _
        _ < ⊤ := by
            unfold candScoreT
            exact WithTop.coe_lt_top _
    obtain ⟨c', hfind, hfold⟩ := (foldl_selStep candScoreT (c0 :: cs0) none ⊤).1 hlt
    rw [hfold, hfind]
    rfl

/-- C5: each vessel's history is a bounded FIFO buffer: appending `cap + 1`
positions to an empty history of capacity `cap` (the `deque(maxlen=...)`
created in `add_boat` with the capacity fixed in `__init__`) leaves exactly
the `cap` most recent positions in arrival order, the oldest evicted; and no
append ever makes the buffer exceed its capacity. -/
theorem history_bounded_fifo {α : Type} (cap : ℕ) (ps : List α)
    (h : ps.length = cap + 1) :
    List.foldl (appendBounded cap) [] ps = ps.drop 1 ∧
      ∀ (l : List α) (p : α), (appendBounded cap l p).length ≤ cap := by
  constructor
  · rw [foldl_appendBounded cap ps [] (by simp), List.nil_append, takeLast, h]
    simp
  · exact fun l p => length_appendBounded_le cap l p

/-- Witness for `history_bounded_fifo` at capacity 2 and three appends. -/
theorem history_bounded_fifo_witness :
    ([10, 20, 30] : List ℕ).length = 2 + 1 ∧
      (List.foldl (appendBounded 2) [] [10, 20, 30] = [20, 30] ∧
        ∀ (l : List ℕ) (p : ℕ), (appendBounded 2 l p).length ≤ 2) :=
  ⟨by decide, history_bounded_fifo 2 [10, 20, 30] (by decide)⟩

theorem getD_mem_or_default {β : Type} (l : List β) (i : ℕ) (d : β) :
    l.getD i d ∈ l ∨ l.getD i d = d := by
  induction l generalizing i with
  | nil => right; simp [List.getD]
  | cons x xs ih =>
    cases i with
    | zero => left; simp [List.getD]
    | succ n =>
      have hred : (x :: xs).getD (n + 1) d = xs.getD n d := rfl
      rw [hred]
      rcases ih n with h | h
      · exact Or.inl (List.mem_cons_of_mem x h)
      · exact Or.inr h

theorem chosen_mem (c : String) (cs : List String) (i : ℕ) :
    (c :: cs).getD i c ∈ c :: cs := by
  rcases getD_mem_or_default (c :: cs) i c with h | h
  · exact h
  · rw [h]
    exact List.mem_cons_self c cs

theorem mem_color_dictSet (k : String) (v : BoatInfo) (bs : List (String × BoatInfo)) :
    ∀ x ∈ (dictSet k v bs).map (fun nb => nb.2.color),
      x = v.color ∨ x ∈ bs.map (fun nb => nb.2.color) := by
  induction bs with
  | nil =>
    intro x hx
    simp [dictSet] at hx
    exact Or.inl hx
  | cons kv rest ih =>
    intro x hx
    by_cases h : kv.1 = k
    · simp only [dictSet, if_pos h, List.map_cons, List.mem_cons] at hx
      rcases hx with hx | hx
      · exact Or.inl hx
      · exact Or.inr (List.mem_cons_of_mem _ hx)
    · simp only [dictSet, if_neg h, List.map_cons, List.mem_cons] at hx
      rcases hx with hx | hx
      · exact Or.inr (by rw [hx]; exact List.mem_cons_self _ _)
      · rcases ih x hx with h1 | h1
        · exact Or.inl h1
        · exact Or.inr (List.mem_cons_of_mem _ h1)

theorem nodup_color_dictSet (k : String) (v : BoatInfo) (bs : List (String × BoatInfo))
    (hnd : (bs.map (fun nb => nb.2.color)).Nodup)
    (hnotin : v.color ∉ bs.map (fun nb => nb.2.color)) :
    ((dictSet k v bs).map (fun nb => nb.2.color)).Nodup := by
  induction bs with
  | nil => simp [dictSet]
  | cons kv rest ih =>
    simp only [List.map_cons, List.nodup_cons, List.mem_cons, not_or] at hnd hnotin
    by_cases h : kv.1 = k
    · simp only [dictSet, if_pos h, List.map_cons, List.nodup_cons]
      exact ⟨hnotin.2, hnd.2⟩
    · simp only [dictSet, if_neg h, List.map_cons, List.nodup_cons]
      constructor
      · intro hmem
        rcases mem_color_dictSet k v rest _ hmem with heq | hmem2
        · exact hnotin.1 heq.symm
        · exact hnd.1 hmem2
      · exact ih hnd.2 hnotin.2

theorem addBoat_colorInv (choice : ℕ) (name url : String) (tr tr' : Tracker)
    (hinv : ColorInv tr) (h : addBoat choice name url tr = some tr') :
    ColorInv tr' ∧ tr'.colors.length + 1 = tr.colors.length := by
  obtain ⟨hnd, hbnd, hdisj, hbinit, hcinit⟩ := hinv
  unfold addBoat at h
  cases hcol : tr.colors with
  | nil =>
    rw [hcol] at h
    exact absurd h (by simp)
  | cons c cs =>
    rw [hcol] at h
    simp only [Option.some_inj] at h
    subst h
    rw [hcol] at hnd hdisj hcinit
    have hcmem : (c :: cs).getD (choice % (c :: cs).length) c ∈ c :: cs :=
      chosen_mem c cs _
    have hnotin : (c :: cs).getD (choice % (c :: cs).length) c ∉ boatColors tr := by
      intro hmem
      exact hdisj _ hmem hcmem
    constructor
    · refine ⟨?_, ?_, ?_, ?_, ?_⟩
      · exact hnd.erase _
      · exact nodup_color_dictSet name _ tr.boats hbnd hnotin
      · intro x hx hxe
        rcases mem_color_dictSet name _ tr.boats x hx with heq | hx2
        · rw [heq] at hxe
          exact (List.Nodup.mem_erase_iff hnd).mp hxe |>.1 rfl
        · exact hdisj x hx2 (List.mem_of_mem_erase hxe)
      · intro x hx
        rcases mem_color_dictSet name _ tr.boats x hx with heq | hx2
        · rw [heq]
          exact hcinit _ hcmem
        · exact hbinit x hx2
      · intro x hx
        exact hcinit x (List.mem_of_mem_erase hx)
    · have hlen : ((c :: cs).erase ((c :: cs).getD (choice % (c :: cs).length) c)).length =
          (c :: cs).length - 1 := List.length_erase_of_mem hcmem
      simp only [hlen]
      simp [List.length_cons]

theorem foldAdds_colorInv (adds : List (ℕ × String × String)) (tr tr' : Tracker)
    (hinv : ColorInv tr) (h : foldAdds adds tr = some tr') :
    ColorInv tr' ∧ tr'.colors.length + adds.length = tr.colors.length := by
  induction adds generalizing tr with
  | nil =>
    simp only [foldAdds, Option.some_inj] at h
    subst h
    exact ⟨hinv, by simp⟩
  | cons a rest ih =>
    unfold foldAdds at h
    cases hab : addBoat a.1 a.2.1 a.2.2 tr with
    | none =>
      rw [hab] at h
      simp at h
    | some tr1 =>
      rw [hab] at h
      simp only [Option.some_bind] at h
      obtain ⟨hinv1, hlen1⟩ := addBoat_colorInv a.1 a.2.1 a.2.2 tr tr1 hinv hab
      obtain ⟨hinv', hlen'⟩ := ih tr1 hinv1 h
      refine ⟨hinv', ?_⟩
      simp only [List.length_cons]
      omega

theorem colorInv_init : ColorInv initTracker := by
  refine ⟨?_, ?_, ?_, ?_, ?_⟩
  · decide
  · simp [initTracker, boatColors]
  · simp [initTracker, boatColors]
  · simp [initTracker, boatColors]
  · intro x hx
    exact hx

/-- C6: starting from a fresh tracker, any sequence of successful `add_boat`
registrations assigns pairwise-distinct colours, all drawn from the fixed
6-entry palette; and after 6 registrations the palette is empty, so a 7th
registration fails on the empty-list access in `random.choice` (modelled by
`none`) instead of reusing a colour. -/
theorem color_uniqueness (adds : List (ℕ × String × String)) (tr' : Tracker)
    (h : foldAdds adds initTracker = some tr') :
    ((boatColors tr').Nodup ∧ ∀ c ∈ boatColors tr', c ∈ initColors) ∧
      (adds.length = 6 → ∀ choice name url, addBoat choice name url tr' = none) := by
  obtain ⟨hinv, hlen⟩ := foldAdds_colorInv adds initTracker tr' colorInv_init h
  obtain ⟨hc1, hc2, hc3, hc4, hc5⟩ := hinv
  refine ⟨⟨hc2, hc4⟩, ?_⟩
  intro h6 choice name url
  have hzero : tr'.colors.length = 0 := by
    have hsix : (initTracker).colors.length = 6 := rfl
    omega
  have hnil : tr'.colors = [] := List.length_eq_zero.mp hzero
  unfold addBoat
  rw [hnil]

/-- Witness for `color_uniqueness`: the six registrations of `adds6` give
six distinct palette colours and a 7th registration fails. -/
theorem color_uniqueness_witness :
    ((boatColors tr6).Nodup ∧ ∀ c ∈ boatColors tr6, c ∈ initColors) ∧
      (∀ choice name url, addBoat choice name url tr6 = none) :=
  ⟨(color_uniqueness adds6 tr6 (by rfl)).1,
    (color_uniqueness adds6 tr6 (by rfl)).2 (by rfl)⟩

end BoatTracker
